import Mathlib

/-!
Verification of the core of the `rice` p2pool-style mining pool coordinator.

The development shallowly embeds the three source files
`src/p2pool/p2p/shares/BaseShare.ts`, `src/p2pool/p2p/Peer.ts` and
`src/pool/task/TaskServer.ts`.  Buffers are modelled as lists of bytes
(`Fin 256`), JS `Map`s as association lists in insertion order, and JS
exceptions (failed `assert`s, `TypeError`s) as `Except.error`.
Components of the repository that are referenced but whose sources are not
available (BufferReader/BufferWriter, SmallBlockHeader, ShareInfo, HashLink,
Node, Property) are modelled from the specification; each such definition
carries a doc comment saying so.
-/

set_option maxRecDepth 8000

/-- A byte. Using `Fin 256` keeps buffers well formed by construction. -/
abbrev Byte := Fin 256

/-- Truncate a natural number to a byte, as JS buffer writes do. -/
def mkByte (n : Nat) : Byte := ⟨n % 256, Nat.mod_lt _ (by omega)⟩

/-- Modelled from the spec: little-endian fixed-width integer write
(BufferWriter, "All multi-byte integers are little-endian"). -/
def writeLE : Nat → Nat → List Byte
  | 0, _ => []
  | w + 1, n => mkByte n :: writeLE w (n / 256)

/-- Value of a byte list read as a little-endian integer. -/
def toLENat : List Byte → Nat
  | [] => 0
  | b :: rest => b.val + 256 * toLENat rest

/-- Modelled from the spec: fixed-size read from a buffer reader
(BufferReader is not in the sources). Returns the bytes and the rest. -/
def readBytes (k : Nat) (bs : List Byte) : Option (List Byte × List Byte) :=
  if k ≤ bs.length then some (bs.take k, bs.drop k) else none

/-- Modelled from the spec: `reader.readNumber(width)`, a little-endian
integer read of configurable width returning a big integer. -/
def readNumber (w : Nat) (bs : List Byte) : Option (Nat × List Byte) :=
  (readBytes w bs).map fun p => (toLENat p.1, p.2)

/-- Modelled from the spec: `BufferWriter.writeVarNumber`, the Bitcoin
"compact size" encoding. -/
def writeVarNumber (n : Nat) : List Byte :=
  if n < 253 then [mkByte n]
  else if n < 65536 then mkByte 253 :: writeLE 2 n
  else if n < 4294967296 then mkByte 254 :: writeLE 4 n
  else mkByte 255 :: writeLE 8 n

/-- Modelled from the spec: compact-size read, the inverse of
`writeVarNumber` ("Serialization is the inverse of parse"). -/
def readVarNumber (bs : List Byte) : Option (Nat × List Byte) :=
  match bs with
  | [] => none
  | b :: rest =>
    if b.val < 253 then some (b.val, rest)
    else if b.val = 253 then
      (readNumber 2 rest).bind fun p => if 253 ≤ p.1 then some p else none
    else if b.val = 254 then
      (readNumber 4 rest).bind fun p => if 65536 ≤ p.1 then some p else none
    else
      (readNumber 8 rest).bind fun p => if 4294967296 ≤ p.1 then some p else none

/-- Modelled from the spec: `BufferWriter.writeVarString`, a var-number
length followed by the raw bytes. -/
def writeVarString (s : List Byte) : List Byte :=
  writeVarNumber s.length ++ s

/-- Modelled from the spec: var-string read, dual of `writeVarString`. -/
def readVarString (bs : List Byte) : Option (List Byte × List Byte) :=
  (readVarNumber bs).bind fun p => readBytes p.1 p.2

/-- Modelled from the spec: `BufferWriter.writeList`, a var-number count
followed by the concatenated fixed-size items. -/
def writeList (hs : List (List Byte)) : List Byte :=
  writeVarNumber hs.length ++ hs.flatten

/-- Read `n` fixed-size chunks of `k` bytes each. -/
def readChunks (k : Nat) : Nat → List Byte → Option (List (List Byte) × List Byte)
  | 0, bs => some ([], bs)
  | n + 1, bs =>
    (readBytes k bs).bind fun p =>
      (readChunks k n p.2).map fun q => (p.1 :: q.1, q.2)

/-- Modelled from the spec: `reader.readList(k)`, a length-prefixed list of
`k`-byte items. -/
def readList (k : Nat) (bs : List Byte) : Option (List (List Byte) × List Byte) :=
  (readVarNumber bs).bind fun p => readChunks k p.1 p.2

/-- Serialization of one transaction-hash-ref tuple: a pair of var-numbers. -/
def writeVarPair (t : Nat × Nat) : List Byte :=
  writeVarNumber t.1 ++ writeVarNumber t.2

/-- Read one transaction-hash-ref tuple. -/
def readVarPair (bs : List Byte) : Option ((Nat × Nat) × List Byte) :=
  (readVarNumber bs).bind fun p =>
    (readVarNumber p.2).map fun q => ((p.1, q.1), q.2)

/-- Read `n` var-number pairs. -/
def readVarPairs : Nat → List Byte → Option (List (Nat × Nat) × List Byte)
  | 0, bs => some ([], bs)
  | n + 1, bs =>
    (readVarPair bs).bind fun p =>
      (readVarPairs n p.2).map fun q => (p.1 :: q.1, q.2)

/-- Modelled from the spec: transactionHashRefs serialization, a
length-prefixed list of var-number pairs. -/
def writePairList (ps : List (Nat × Nat)) : List Byte :=
  writeVarNumber ps.length ++ (ps.map writeVarPair).flatten

/-- Read a length-prefixed list of var-number pairs. -/
def readPairList (bs : List Byte) : Option (List (Nat × Nat) × List Byte) :=
  (readVarNumber bs).bind fun p => readVarPairs p.1 p.2

-- Share record data model (src/p2pool/p2p/shares/BaseShare.ts and the
-- spec's wire format for the components whose sources are missing).

/-- Modelled from the spec: SmallBlockHeader — version, previous-block hash
(raw, 32 bytes), timestamp, nBits, nonce (source Smallblockheader.ts is not
under src). -/
structure SmallBlockHeader where
  version : Nat
  previousBlockHash : List Byte
  timestamp : Nat
  bits : Nat
  nonce : Nat
deriving DecidableEq

/-- Modelled from the spec: SmallBlockHeader serialization — version (4 LE),
previous-block hash (32), timestamp (4 LE), nBits (4 LE), nonce (4 LE). -/
def SmallBlockHeader.toBuffer (h : SmallBlockHeader) : List Byte :=
  writeLE 4 h.version ++ h.previousBlockHash ++ writeLE 4 h.timestamp ++
    writeLE 4 h.bits ++ writeLE 4 h.nonce

/-- Modelled from the spec: SmallBlockHeader parse, dual of its serialization. -/
def SmallBlockHeader.fromBufferReader (bs : List Byte) :
    Option (SmallBlockHeader × List Byte) :=
  (readNumber 4 bs).bind fun p1 =>
  (readBytes 32 p1.2).bind fun p2 =>
  (readNumber 4 p2.2).bind fun p3 =>
  (readNumber 4 p3.2).bind fun p4 =>
  (readNumber 4 p4.2).bind fun p5 =>
  some (⟨p1.1, p2.1, p3.1, p4.1, p5.1⟩, p5.2)

/-- Modelled from the spec: the full 80-byte header emitted by
`minHeader.buildHeader(merkleRoot)` — version, previous block hash, Merkle
root, timestamp, nBits, nonce. -/
def SmallBlockHeader.buildHeader (h : SmallBlockHeader) (merkleRoot : List Byte) : List Byte :=
  writeLE 4 h.version ++ h.previousBlockHash ++ merkleRoot ++
    writeLE 4 h.timestamp ++ writeLE 4 h.bits ++ writeLE 4 h.nonce

/-- Modelled from the spec: the segwit sub-structure of ShareInfo — a
txidMerkleLink (list of 32-byte hashes plus a 4-byte index) and a
witness-reserved value (32 bytes). -/
structure SegwitInfo where
  txidMerkleLink : List (List Byte)
  txidMerkleIndex : Nat
  wtxidMerkleRoot : List Byte
deriving DecidableEq

/-- Serialization of the segwit sub-structure. -/
def SegwitInfo.toBuffer (sg : SegwitInfo) : List Byte :=
  writeList sg.txidMerkleLink ++ writeLE 4 sg.txidMerkleIndex ++ sg.wtxidMerkleRoot

/-- Parse of the segwit sub-structure. -/
def SegwitInfo.fromBufferReader (bs : List Byte) : Option (SegwitInfo × List Byte) :=
  (readList 32 bs).bind fun p1 =>
  (readNumber 4 p1.2).bind fun p2 =>
  (readBytes 32 p2.2).bind fun p3 =>
  some (⟨p1.1, p2.1, p3.1⟩, p3.2)

/-- Modelled from the spec: the `data` block of ShareInfo, holding the
previous share hash, coinbase, nonce, payout key-hash and other metadata
(the source accesses it as `info.data.pubkeyHash` and
`info.data.previousShareHash`). -/
structure ShareData where
  previousShareHash : List Byte
  coinbase : List Byte
  nonce : Nat
  pubkeyHash : List Byte
  subsidy : Nat
  donation : Nat
  staleInfo : Nat
  desiredVersion : Nat
deriving DecidableEq

/-- Modelled from the spec: ShareData serialization — previousShareHash (32),
coinbase (varstring), nonce (4), pubkeyHash (20), subsidy (8), donation (2),
staleInfo (1), desiredVersion (varint). -/
def ShareData.toBuffer (d : ShareData) : List Byte :=
  d.previousShareHash ++ writeVarString d.coinbase ++ writeLE 4 d.nonce ++
  d.pubkeyHash ++ writeLE 8 d.subsidy ++ writeLE 2 d.donation ++
  writeLE 1 d.staleInfo ++ writeVarNumber d.desiredVersion

/-- Modelled from the spec: ShareData parse, dual of its serialization. -/
def ShareData.fromBufferReader (bs : List Byte) : Option (ShareData × List Byte) :=
  (readBytes 32 bs).bind fun p1 =>
  (readVarString p1.2).bind fun p2 =>
  (readNumber 4 p2.2).bind fun p3 =>
  (readBytes 20 p3.2).bind fun p4 =>
  (readNumber 8 p4.2).bind fun p5 =>
  (readNumber 2 p5.2).bind fun p6 =>
  (readNumber 1 p6.2).bind fun p7 =>
  (readVarNumber p7.2).bind fun p8 =>
  some (⟨p1.1, p2.1, p3.1, p4.1, p5.1, p6.1, p7.1, p8.1⟩, p8.2)

/-- Modelled from the spec: ShareInfo, the payout-bearing payload of a
share (source Shareinfo.ts is not under src).  `txHashRefs` is the list of
`(shareCount, txCount)` tuples returned by `extractTransactionHashRefs`.
The optional `farShareHash` is carried as a plain 32-byte field (a
possibly-none hash encoded in place). -/
structure ShareInfo where
  data : ShareData
  txHashRefs : List (Nat × Nat)
  newTransactionHashes : List (List Byte)
  farShareHash : List Byte
  bits : Nat
  timestamp : Nat
  absheight : Nat
  abswork : Nat
  segwit : Option SegwitInfo
deriving DecidableEq

/-- Read the optional segwit tail of ShareInfo: present exactly when the
segwit flag (`isSegwitActivated(version)`) is set. -/
def readSegwitTail (segwitActivated : Bool) (bs : List Byte) :
    Option (Option SegwitInfo × List Byte) :=
  if segwitActivated then
    (SegwitInfo.fromBufferReader bs).bind fun p => some (some p.1, p.2)
  else
    some (none, bs)

/-- Serialization of the optional segwit tail, dual of `readSegwitTail`. -/
def writeSegwitTail : Option SegwitInfo → List Byte
  | some sg => sg.toBuffer
  | none => []

/-- Modelled from the spec: ShareInfo serialization in the spec's field
order — the data block, transactionHashRefs (list of varint pairs),
newTransactionHashes (list of 32-byte hashes), farShareHash (32), bits (4),
timestamp (4), absheight (4), abswork (16); the segwit sub-structure is
appended when present. -/
def ShareInfo.toBuffer (i : ShareInfo) : List Byte :=
  i.data.toBuffer ++ writePairList i.txHashRefs ++
  writeList i.newTransactionHashes ++ i.farShareHash ++ writeLE 4 i.bits ++
  writeLE 4 i.timestamp ++ writeLE 4 i.absheight ++ writeLE 16 i.abswork ++
  writeSegwitTail i.segwit

/-- Modelled from the spec: ShareInfo parse, dual of its serialization; the
segwit flag decides whether the segwit sub-structure is read. -/
def ShareInfo.fromBufferReader (bs : List Byte) (segwitActivated : Bool) :
    Option (ShareInfo × List Byte) :=
  (ShareData.fromBufferReader bs).bind fun p1 =>
  (readPairList p1.2).bind fun p2 =>
  (readList 32 p2.2).bind fun p3 =>
  (readBytes 32 p3.2).bind fun p4 =>
  (readNumber 4 p4.2).bind fun p5 =>
  (readNumber 4 p5.2).bind fun p6 =>
  (readNumber 4 p6.2).bind fun p7 =>
  (readNumber 16 p7.2).bind fun p8 =>
  (readSegwitTail segwitActivated p8.2).bind fun p9 =>
  some (⟨p1.1, p2.1, p3.1, p4.1, p5.1, p6.1, p7.1, p8.1, p9.1⟩, p9.2)

/-- Modelled from the spec: HashLink, a persisted SHA-256 midstate — 32-byte
state, 8-byte length counter, trailing unhashed tail (source HashLink.ts is
not under src). -/
structure HashLink where
  state : List Byte
  length : Nat
  extra : List Byte
deriving DecidableEq

/-- Modelled from the spec: HashLink serialization — 32 state + 8 length +
varstring tail. -/
def HashLink.toBuffer (hl : HashLink) : List Byte :=
  hl.state ++ writeLE 8 hl.length ++ writeVarString hl.extra

/-- Modelled from the spec: HashLink parse, dual of its serialization. -/
def HashLink.fromBufferReader (bs : List Byte) : Option (HashLink × List Byte) :=
  (readBytes 32 bs).bind fun p1 =>
  (readNumber 8 p1.2).bind fun p2 =>
  (readVarString p2.2).bind fun p3 =>
  some (⟨p1.1, p2.1, p3.1⟩, p3.2)

/-- A share: `BaseShare`'s persistent fields (BaseShare.ts lines 25-36).
`version` is the `VERSION` constant installed by the variant constructor. -/
structure BaseShare where
  version : Nat
  minHeader : SmallBlockHeader
  info : ShareInfo
  refMerkleLink : List (List Byte)
  lastTxoutNonce : Nat
  hashLink : HashLink
  merkleLink : List (List Byte)
deriving DecidableEq

/-- `BaseShare.toBuffer` (BaseShare.ts lines 87-96): minHeader, info,
refMerkleLink list, 8-byte little-endian lastTxoutNonce, hashLink,
merkleLink, concatenated in that order. -/
def BaseShare.toBuffer (s : BaseShare) : List Byte :=
  s.minHeader.toBuffer ++ s.info.toBuffer ++ writeList s.refMerkleLink ++
    writeLE 8 s.lastTxoutNonce ++ s.hashLink.toBuffer ++ writeList s.merkleLink

/-- `BaseShare.isSegwitActivated` (BaseShare.ts lines 113-115):
`version >= SEGWIT_ACTIVATION_VERSION && SEGWIT_ACTIVATION_VERSION > 0`.
The activation version is an `Int` so that non-positive configured values
are representable. -/
def BaseShare.isSegwitActivated (segwitActivationVersion : Int) (version : Int) : Bool :=
  segwitActivationVersion ≤ version && 0 < segwitActivationVersion

/-- The default value of `BaseShare.SEGWIT_ACTIVATION_VERSION`
(BaseShare.ts line 20). -/
def segwitActivationVersionDefault : Int := 0

/-- The share-version registry `ShareVersionMapper = { 16: Share, 17: NewShare }`
(BaseShare.ts line 146). The payload is the variant's `VOTING_VERSION` and
`MAX_NEW_TXS_SIZE` constants (v16 legacy, v17 larger MAX_NEW_TXS_SIZE). -/
def ShareVersionMapper (version : Nat) : Option (Nat × Nat) :=
  if version = 16 then some (16, 50000)
  else if version = 17 then some (17, 100000)
  else none

/-- The field-reading part of `BaseShare.fromBufferReader` (BaseShare.ts
lines 99-111): look the version up in the registry, then read minHeader,
info (with the segwit flag), refMerkleLink, lastTxoutNonce, hashLink,
merkleLink.  Returns `none` when the version is not in the registry,
before reading anything. -/
def BaseShare.readFields (segwitActivationVersion : Int) (version : Nat)
    (bs : List Byte) : Option (BaseShare × List Byte) :=
  match ShareVersionMapper version with
  | none => none
  | some _ =>
    (SmallBlockHeader.fromBufferReader bs).bind fun p1 =>
    (ShareInfo.fromBufferReader p1.2
        (BaseShare.isSegwitActivated segwitActivationVersion version)).bind fun p2 =>
    (readList 32 p2.2).bind fun p3 =>
    (readNumber 8 p3.2).bind fun p4 =>
    (HashLink.fromBufferReader p4.2).bind fun p5 =>
    (readList 32 p5.2).bind fun p6 =>
    some (⟨version, p1.1, p2.1, p3.1, p4.1, p5.1, p6.1⟩, p6.2)

-- Share validation: BaseShare.init and its static configuration
-- (BaseShare.ts lines 13-23 and 53-85).

/-- Value of a lowercase hex digit character. -/
def hexVal (c : Char) : Nat :=
  if c.isDigit then c.toNat - 48 else c.toNat - 87

/-- Decode a list of hex characters, two per byte. -/
def hexPairsToBytes : List Char → List Byte
  | a :: b :: rest => mkByte (16 * hexVal a + hexVal b) :: hexPairsToBytes rest
  | _ => []

/-- Decode a hex string into bytes, as `Buffer.from(s, 'hex')`. -/
def hexToBytes (s : String) : List Byte := hexPairsToBytes s.data

/-- `DONATION_SCRIPT` (BaseShare.ts line 13). -/
def DONATION_SCRIPT : List Byte :=
  hexToBytes "4104ffd03de44a6e11b9917f3a29f9443283d9871c9d743ef30d5eddcd37094b64d1b3d8090496b53256786bf5c82932ec23c3b74d9f05a6f95a8b5529352656664bac"

/-- `GENTX_BEFORE_REFHASH` (BaseShare.ts line 14): the pushed donation
script, an 8-byte zero value, and the first 3 bytes of a var-string-wrapped
OP_RETURN header. -/
def GENTX_BEFORE_REFHASH : List Byte :=
  writeVarNumber DONATION_SCRIPT.length ++ DONATION_SCRIPT ++
    List.replicate 8 (0 : Byte) ++
    (writeVarString (hexToBytes
      "6a2800000000000000000000000000000000000000000000000000000000000000000000000000000000")).take 3

/-- The static configuration of `BaseShare` installed at pool start
(BaseShare.ts lines 20-23), together with the hashing and codec primitives
whose sources are not under src (`utils.sha256d`, `utils.hash160ToScript`,
`Algos.bitsToTarget`, `HashLink.check`), taken as parameters.
`hashLinkCheck link suffix expected` returns `none` when the check fails
(the stored length is incompatible with the expected gentx head). -/
structure ShareEnv where
  identifier : List Byte
  powFunc : List Byte → List Byte
  maxTarget : Nat
  segwitActivationVersion : Int
  sha256d : List Byte → List Byte
  hash160ToScript : List Byte → List Byte
  bitsToTarget : Nat → Nat
  hashLinkCheck : HashLink → List Byte → List Byte → Option (List Byte)

/-- `BaseShare.getRefHash` (BaseShare.ts lines 117-120): double-SHA256 of
IDENTIFIER concatenated with the serialized share info, folded through the
reference Merkle link. -/
def BaseShare.getRefHash (env : ShareEnv) (shareInfo : ShareInfo)
    (refMerkleLink : List (List Byte)) : List Byte :=
  refMerkleLink.foldl (fun c n => env.sha256d (c ++ n))
    (env.sha256d (env.identifier ++ shareInfo.toBuffer))

/-- The gentx-hash computation of `init()` (BaseShare.ts lines 69-73):
`hashLink.check(refHash || lastTxoutNonce_LE8 || lockTime4, GENTX_BEFORE_REFHASH)`. -/
def gentxHashOf (env : ShareEnv) (s : BaseShare) : Option (List Byte) :=
  env.hashLinkCheck s.hashLink
    (BaseShare.getRefHash env s.info s.refMerkleLink ++
      writeLE 8 s.lastTxoutNonce ++ List.replicate 4 (0 : Byte))
    GENTX_BEFORE_REFHASH

/-- The Merkle-link choice of `init()` (BaseShare.ts line 75): the segwit
txidMerkleLink branch when segwit is activated and present, the share's own
merkleLink otherwise. -/
def merkleLinkChosen (env : ShareEnv) (s : BaseShare) : List (List Byte) :=
  if BaseShare.isSegwitActivated env.segwitActivationVersion (s.version : Int) then
    (s.info.segwit.map SegwitInfo.txidMerkleLink).getD s.merkleLink
  else s.merkleLink

/-- The Merkle root of `init()` (BaseShare.ts line 75): the chosen link
folded from the gentx hash with double-SHA256 of the concatenations. -/
def shareMerkleRoot (env : ShareEnv) (s : BaseShare) (gentxHash : List Byte) : List Byte :=
  (merkleLinkChosen env s).foldl (fun c n => env.sha256d (c ++ n)) gentxHash

/-- The proof-of-work value of `init()` (BaseShare.ts line 81): the PoW
function applied to the full header, read as a little-endian integer. -/
def sharePowValue (env : ShareEnv) (s : BaseShare) (gentxHash : List Byte) : Nat :=
  toLENat (env.powFunc (s.minHeader.buildHeader (shareMerkleRoot env s gentxHash)))

/-- The distinct txCount values among the `(shareCount == 0, txCount)`
hash-ref tuples — the set `n` built by `init()` (BaseShare.ts lines 56-62). -/
def dedupTxCounts (refs : List (Nat × Nat)) : List Nat :=
  ((refs.filter fun t => t.1 = 0).map fun t => t.2).dedup

/-- The fields `init()` derives on success (BaseShare.ts lines 38-44, 65-78).
The share hash is kept as the reversed header-hash bytes
(`utils.hexFromReversedBuffer` renders them as hex). -/
structure ShareDerived where
  newTxHashes : List (List Byte)
  newScript : List Byte
  target : Nat
  gentxHash : List Byte
  hash : List Byte
  previousHash : List Byte
deriving DecidableEq

/-- `BaseShare.init` (BaseShare.ts lines 53-85).  `Except.error` is a thrown
JS exception: the failed `assert.equal(shareCount < 110, true)`, a failing
`hashLink.check`, or the `TypeError` of reading `segwit.txidMerkleLink` when
segwit is activated but the share has no segwit data.  `Except.ok none` is a
plain `return false` with `validity` still false; `Except.ok (some d)` is the
success path that sets `validity = true`. -/
def BaseShare.init (env : ShareEnv) (s : BaseShare) : Except Unit (Option ShareDerived) :=
  if s.info.txHashRefs.any fun t => 110 ≤ t.1 then Except.error ()
  else if (dedupTxCounts s.info.txHashRefs).length ≠ s.info.newTransactionHashes.length then
    Except.ok none
  else
    match gentxHashOf env s with
    | none => Except.error ()
    | some g =>
      if BaseShare.isSegwitActivated env.segwitActivationVersion (s.version : Int) ∧
          s.info.segwit = none then Except.error ()
      else
        let target := env.bitsToTarget s.info.bits
        if env.maxTarget < target then Except.ok none
        else if target < sharePowValue env s g then Except.ok none
        else Except.ok (some
          ⟨s.info.newTransactionHashes,
           env.hash160ToScript s.info.data.pubkeyHash,
           target, g,
           (env.sha256d (s.minHeader.buildHeader (shareMerkleRoot env s g))).reverse,
           s.info.data.previousShareHash⟩)

/-- `BaseShare.fromBufferReader` (BaseShare.ts lines 99-111): read the
fields, then call `init()`; the share is returned together with the outcome
of its validation. -/
def BaseShare.fromBufferReader (env : ShareEnv) (version : Nat) (bs : List Byte) :
    Option ((BaseShare × Except Unit (Option ShareDerived)) × List Byte) :=
  (BaseShare.readFields env.segwitActivationVersion version bs).map fun p =>
    ((p.1, BaseShare.init env p.1), p.2)

-- Peer coordinator and node state (src/p2pool/p2p/Peer.ts).  JS Maps are
-- association lists in insertion order: `set` overwrites in place or
-- appends, `get`/`has` scan by key.

/-- A `TransactionTemplate` from the daemon watcher: txid, hash, hex data
(DaemonWatcher.ts is not under src; modelled from the spec). -/
structure TransactionTemplate where
  txid : String
  hash : String
  data : String
deriving DecidableEq

/-- The identity key `tx.txid || tx.hash`: txid preferred, falling back to
hash when txid is empty (falsy). -/
def txKey (t : TransactionTemplate) : String :=
  if t.txid = "" then t.hash else t.txid

/-- JS `Map.get` on an association list. -/
def lookupKey {α : Type} : List (String × α) → String → Option α
  | [], _ => none
  | (k1, v) :: rest, k => if k1 = k then some v else lookupKey rest k

/-- JS `Map.set` on an association list: overwrite in place or append. -/
def mapSet {α : Type} : List (String × α) → String → α → List (String × α)
  | [], k, v => [(k, v)]
  | (k1, v1) :: rest, k, v =>
    if k1 = k then (k1, v) :: rest else (k1, v1) :: mapSet rest k v

/-- Modelled from the spec: a `Node` (one peer endpoint; Node.ts is not
under src).  Owns a tag, the remembered-tx map (a transaction modelled by
its hex data), and the remote-known-tx hashes. -/
structure Node where
  tag : String
  rememberedTxs : List (String × String)
  remoteTxHashs : List String
deriving DecidableEq

/-- Modelled from the spec: a `bitcoinjs` Transaction as it appears in
`remember_tx` — observable through `getHash()` and `toHex()`. -/
structure Transaction where
  hash : String
  hex : String
deriving DecidableEq

/-- An outbound peer command, tagged by the receiving node. -/
inductive PeerMsg where
  | have_tx (hashes : List String)
  | losing_tx (hashes : List String)
  | remember_tx (hashes : List String) (txs : List TransactionTemplate)
  | forget_tx (hashes : List String) (totalSize : ℚ)
deriving DecidableEq

/-- The coordinator state of `Peer` (Peer.ts lines 19-22): the node map
(keyed by tag), the observable knownTxs map, and the bounded snapshot list
knownTxsCaches. -/
structure Peer where
  peers : List Node
  knownTxs : List (String × TransactionTemplate)
  knownTxsCaches : List (List (String × TransactionTemplate))
deriving DecidableEq

/-- The Linq `except` used by the diff logic (Peer.ts lines 96-97, 122-123):
entries of the left map whose key has no match in the right map. -/
def exceptKeys (left right : List (String × TransactionTemplate)) :
    List (String × TransactionTemplate) :=
  left.filter fun kv => (lookupKey right kv.1).isNone

/-- `onKnownTxsChanged` (Peer.ts lines 93-117): broadcast `have_tx` of the
added keys and `losing_tx` of the removed keys, push a snapshot of the
removed entries (hash, old template) onto knownTxsCaches, and `shift` the
oldest snapshot off when the list exceeds 10.  Returns the new cache list
and the outbound messages. -/
def onKnownTxsChanged (peers : List Node)
    (knownTxsCaches : List (List (String × TransactionTemplate)))
    (oldValue newValue : List (String × TransactionTemplate)) :
    List (List (String × TransactionTemplate)) × List (String × PeerMsg) :=
  let added := (exceptKeys newValue oldValue).map fun kv => kv.1
  let removed := (exceptKeys oldValue newValue).map fun kv => kv.1
  let msgs1 := if added.isEmpty then [] else peers.map fun p => (p.tag, PeerMsg.have_tx added)
  let msgs2 := if removed.isEmpty then [] else peers.map fun p => (p.tag, PeerMsg.losing_tx removed)
  let snapshot := removed.filterMap fun h => (lookupKey oldValue h).map fun tx => (h, tx)
  let caches1 := knownTxsCaches ++ [snapshot]
  (if 10 < caches1.length then caches1.drop 1 else caches1, msgs1 ++ msgs2)

/-- Modelled from the spec: assignment to the `knownTxs` observable
(`this.knownTxs.set(...)`, Property.ts is not under src) — the change
listener `onKnownTxsChanged` fires synchronously on assignment. -/
def knownTxsSet (p : Peer) (newValue : List (String × TransactionTemplate)) :
    Peer × List (String × PeerMsg) :=
  let r := onKnownTxsChanged p.peers p.knownTxsCaches p.knownTxs newValue
  ({ p with knownTxs := newValue, knownTxsCaches := r.1 }, r.2)

/-- `onMiningTxsChanged` (Peer.ts lines 119-135): per-peer `remember_tx`
split of the added templates by the peer's remoteTxHashs, and `forget_tx`
of the removed templates' keys with `totalSize = sum(data.length / 2)`. -/
def onMiningTxsChanged (peers : List Node)
    (oldValue newValue : List (String × TransactionTemplate)) :
    List (String × PeerMsg) :=
  let added := (exceptKeys newValue oldValue).map fun kv => kv.2
  let removed := (exceptKeys oldValue newValue).map fun kv => kv.2
  let msgs1 :=
    if added.isEmpty then [] else
      peers.map fun pr =>
        (pr.tag, PeerMsg.remember_tx
          ((added.filter fun tx => pr.remoteTxHashs.contains (txKey tx)).map txKey)
          (added.filter fun tx => !(pr.remoteTxHashs.contains (txKey tx))))
  let msgs2 :=
    if removed.isEmpty then [] else
      let totalSize := (removed.map fun tx => (tx.data.length : ℚ) / 2).sum
      peers.map fun pr => (pr.tag, PeerMsg.forget_tx (removed.map txKey) totalSize)
  msgs1 ++ msgs2

/-- The oldest-first scan of the caches in `handleRemember_tx`
(Peer.ts line 65): `knownTxsCaches.where(c => c.has(hash)).select(c =>
c.get(hash)).firstOrDefault()`.  `push` appends and `shift` removes the
front, so the first matching cache in array order is the oldest one. -/
def cacheLookup (caches : List (List (String × TransactionTemplate))) (h : String) :
    Option TransactionTemplate :=
  match caches with
  | [] => none
  | c :: rest =>
    match lookupKey c h with
    | some tx => some tx
    | none => cacheLookup rest h

/-- The combined lookup of `handleRemember_tx` (Peer.ts line 65):
`this.knownTxs.value.get(hash) || <cache scan>`. -/
def knownTxLookup (p : Peer) (h : String) : Option TransactionTemplate :=
  (lookupKey p.knownTxs h) <|> cacheLookup p.knownTxsCaches h

/-- The `txHashes` loop of `handleRemember_tx` (Peer.ts lines 58-73).  The
first component is true when the sender is disconnected.  Note the guard
`txHashes.any(hash => sender.rememberedTxs.has(hash))` tests the whole
txHashes list against the current rememberedTxs, not the loop variable. -/
def rememberHashesLoop (knownTxs : List (String × TransactionTemplate))
    (caches : List (List (String × TransactionTemplate))) (txHashes : List String) :
    List (String × String) → List String → Bool × List (String × String)
  | rem, [] => (false, rem)
  | rem, h :: rest =>
    if txHashes.any fun x => (lookupKey rem x).isSome then (true, rem)
    else
      match (lookupKey knownTxs h) <|> cacheLookup caches h with
      | none => (true, rem)
      | some knownTx =>
        rememberHashesLoop knownTxs caches txHashes (mapSet rem h knownTx.data) rest

/-- The `txs` loop of `handleRemember_tx` (Peer.ts lines 76-86): disconnect
on a hash already remembered, otherwise remember the transaction and insert
it into the working copy of knownTxs. -/
def rememberTxsLoop :
    List (String × String) → List (String × TransactionTemplate) → List Transaction →
    Bool × List (String × String) × List (String × TransactionTemplate)
  | rem, known, [] => (false, rem, known)
  | rem, known, tx :: rest =>
    if (lookupKey rem tx.hash).isSome then (true, rem, known)
    else rememberTxsLoop (mapSet rem tx.hash tx.hex)
      (mapSet known tx.hash ⟨tx.hash, tx.hash, tx.hex⟩) rest

/-- Modelled from the spec: a protocol violation closes the offending peer
with fatal disposition and the coordinator's `onEnd` handler
(Peer.ts line 45) removes it from the peers map. -/
def removeNode (p : Peer) (tag : String) : Peer :=
  { p with peers := p.peers.filter fun n => n.tag != tag }

/-- Write an updated sender back into the peers map (in the source the
node object in the map is mutated in place). -/
def updatePeerNode (p : Peer) (nd : Node) : Peer :=
  { p with peers := p.peers.map fun n => if n.tag = nd.tag then nd else n }

/-- The outcome of `handleRemember_tx`: the coordinator state, the sender's
node state, whether the sender was disconnected, and the outbound messages
of the triggered knownTxs broadcast. -/
structure RememberOutcome where
  state : Peer
  sender : Node
  disconnected : Bool
  msgs : List (String × PeerMsg)
deriving DecidableEq

/-- `handleRemember_tx` (Peer.ts lines 57-89): process the referenced
hashes, then the full transactions, then commit the working copy by
assigning the knownTxs observable; any violation closes the sender (and the
coordinator removes it). -/
def handleRemember_tx (p : Peer) (sender : Node) (txHashes : List String)
    (txs : List Transaction) : RememberOutcome :=
  let r1 := rememberHashesLoop p.knownTxs p.knownTxsCaches txHashes
    sender.rememberedTxs txHashes
  if r1.1 then
    ⟨removeNode p sender.tag, { sender with rememberedTxs := r1.2 }, true, []⟩
  else
    let r2 := rememberTxsLoop r1.2 p.knownTxs txs
    if r2.1 then
      ⟨removeNode p sender.tag, { sender with rememberedTxs := r2.2.1 }, true, []⟩
    else
      let sender1 := { sender with rememberedTxs := r2.2.1 }
      let pc := knownTxsSet (updatePeerNode p sender1) r2.2.2
      ⟨pc.1, sender1, false, pc.2⟩

-- Task server (src/pool/task/TaskServer.ts).

/-- One one-shot block-notify connection (TaskServer.ts lines 42-51): read
the hash; an empty payload or a payload equal to `lastNotifiedHash` is a
no-op, otherwise `refreshMiningInfoAsync` is invoked.  The returned state
is the stored `lastNotifiedHash` after the handler: the source never
assigns the field, so it is returned unchanged. -/
def onBlockNotifyingSocketConnected (lastNotifiedHash : Option String)
    (hash : String) : Option String × Bool :=
  if hash = "" then (lastNotifiedHash, false)
  else if lastNotifiedHash = some hash then (lastNotifiedHash, false)
  else (lastNotifiedHash, true)

/-- Run a sequence of block-notify connections, counting how many times
`refreshMiningInfoAsync` is invoked. -/
def blockNotifyRun : Option String → List String → Option String × Nat
  | last, [] => (last, 0)
  | last, h :: rest =>
    let r := onBlockNotifyingSocketConnected last h
    let r2 := blockNotifyRun r.1 rest
    (r2.1, (if r.2 then 1 else 0) + r2.2)

-- Concrete fixtures used by witnesses and counterexamples.

/-- A trivial static configuration: identity-like hash primitives, MAX_TARGET
100, segwit activation left at its default 0. -/
def env0 : ShareEnv :=
  ⟨[], fun _ => [], 100, segwitActivationVersionDefault,
   fun _ => List.replicate 32 (0 : Byte), fun _ => [], fun b => b,
   fun _ _ _ => some []⟩

/-- A minimal all-zero ShareData block. -/
def data0 : ShareData :=
  ⟨List.replicate 32 (0 : Byte), [], 0, List.replicate 20 (0 : Byte), 0, 0, 0, 0⟩

/-- A minimal ShareInfo: no hash refs, no new hashes, bits 7, no segwit. -/
def info0 : ShareInfo :=
  ⟨data0, [], [], List.replicate 32 (0 : Byte), 7, 0, 0, 0, none⟩

/-- A minimal v16 share. -/
def share0 : BaseShare :=
  ⟨16, ⟨0, List.replicate 32 (0 : Byte), 0, 0, 0⟩, info0, [], 0,
   ⟨List.replicate 32 (0 : Byte), 0, []⟩, []⟩

/-- The sender and template fixtures for the remember_tx scenarios. -/
def ttA : TransactionTemplate := ⟨"a", "a", "aa"⟩

/-- Second template fixture. -/
def ttB : TransactionTemplate := ⟨"b", "b", "bb"⟩

/-- A coordinator that knows the two templates and has one registered node. -/
def peerC2 : Peer := ⟨[⟨"n1", [], []⟩], [("a", ttA), ("b", ttB)], []⟩

/-- The sender node for the remember_tx scenarios: nothing remembered yet. -/
def nodeC2 : Node := ⟨"n1", [], []⟩

/-- Template fixture for the cache-window scenario. -/
def c7tt (h : String) : TransactionTemplate := ⟨h, h, ""⟩

/-- Eleven distinct hashes. -/
def c7hashes : List String :=
  ["h0", "h1", "h2", "h3", "h4", "h5", "h6", "h7", "h8", "h9", "h10"]

/-- One knownTxs mutation removing exactly the hash `h`. -/
def c7step (caches : List (List (String × TransactionTemplate))) (h : String) :
    List (List (String × TransactionTemplate)) :=
  (onKnownTxsChanged [] caches [(h, c7tt h)] []).1

/-- The caches after eleven successive single-removal mutations. -/
def c7run : List (List (String × TransactionTemplate)) :=
  c7hashes.foldl c7step []

-- C8: forget_tx accounting.

/-- A registered peer node fixture for the forget-tx scenario. -/
def nodeC8 : Node := ⟨"p", [], []⟩

/-- A 200-character hex-data string. -/
def s200 : String := String.mk (List.replicate 200 'a')

/-- A 300-character hex-data string. -/
def s300 : String := String.mk (List.replicate 300 'b')

/-- A miningTxs map holding two templates with hex-data lengths 200 and 300. -/
def c8old : List (String × TransactionTemplate) :=
  [("x", ⟨"x", "x", s200⟩), ("y", ⟨"y", "y", s300⟩)]

/-- The spec's words for the cache scan of `remember_tx`: "scan most recent
first" — look the hash up in the newest snapshot first. -/
def cacheLookupSpec (caches : List (List (String × TransactionTemplate)))
    (h : String) : Option TransactionTemplate :=
  cacheLookup caches.reverse h

/-- Older and newer snapshots carrying the same hash with different
templates. -/
def t1C5 : TransactionTemplate := ⟨"h", "h", "aa"⟩

/-- The newer template under the same hash. -/
def t2C5 : TransactionTemplate := ⟨"h", "h", "bb"⟩

/-- A coordinator whose two cache snapshots both hold hash "h": the first
snapshot (pushed first, hence oldest) maps it to t1C5, the most recent one
to t2C5. -/
def peerC5 : Peer := ⟨[⟨"n1", [], []⟩], [], [[("h", t1C5)], [("h", t2C5)]]⟩

/-- The sender for the cache-scan counterexample. -/
def nodeC5 : Node := ⟨"n1", [], []⟩

/-- A coordinator with an empty knownTxs and no caches, and its node. -/
def peerC5w : Peer := ⟨[⟨"n2", [], []⟩], [], []⟩

/-- The sender for the unknown-hash witness. -/
def nodeC5w : Node := ⟨"n2", [], []⟩

-- C10: segwit activation gating.

/-- The serialized minimal share and its parse fixture. -/
def b0 : List Byte := share0.toBuffer

-- C6: validation failures of init().

/-- A share with a transaction-hash-ref tuple whose shareCount is 110. -/
def share110 : BaseShare :=
  { share0 with info := { info0 with txHashRefs := [(110, 0)] } }

/-- A share with a dedup-count mismatch: no hash refs but one new hash. -/
def shareMis : BaseShare :=
  { share0 with info := { info0 with newTransactionHashes := [List.replicate 32 (0 : Byte)] } }

/-- A configuration whose MAX_TARGET is below the minimal share's target. -/
def envT : ShareEnv := { env0 with maxTarget := 0 }

/-- A configuration whose PoW function yields value 1. -/
def envP : ShareEnv := { env0 with powFunc := fun _ => [(1 : Byte)] }

/-- A share whose bits give target 0, insufficient for envP's PoW value 1. -/
def shareP : BaseShare :=
  { share0 with info := { info0 with bits := 0 } }

-- C3: invariants of a successfully validated share.

/-- The derived fields of the minimal share under the trivial
configuration. -/
def d0 : ShareDerived :=
  ⟨[], [], 7, [], (List.replicate 32 (0 : Byte)).reverse, List.replicate 32 (0 : Byte)⟩

-- C4: byte-exact round trip.

-- Exactness lemmas: a successful read pins the consumed bytes down to the
-- writer's output.  These drive the byte-exact round-trip theorem.

theorem readBytes_exact {k : Nat} {bs v rest : List Byte}
    (h : readBytes k bs = some (v, rest)) : v ++ rest = bs ∧ v.length = k := by
  unfold readBytes at h
  split at h
  · injection h with h1
    injection h1 with hv hr
    subst hv; subst hr
    exact ⟨List.take_append_drop k bs, by simpa [List.length_take] using (by omega : min k bs.length = k)⟩
  · exact absurd h (by simp)

theorem writeLE_toLENat : ∀ (v : List Byte), writeLE v.length (toLENat v) = v := by
  intro v
  induction v with
  | nil => rfl
  | cons b t ih =>
    have hb : b.val < 256 := b.isLt
    simp only [List.length_cons, writeLE, toLENat]
    have hhead : mkByte (b.val + 256 * toLENat t) = b := by
      apply Fin.ext
      simp only [mkByte]
      omega
    have hdiv : (b.val + 256 * toLENat t) / 256 = toLENat t := by omega
    rw [hhead, hdiv, ih]

theorem readNumber_exact {w : Nat} {bs rest : List Byte} {n : Nat}
    (h : readNumber w bs = some (n, rest)) : writeLE w n ++ rest = bs := by
  unfold readNumber at h
  rcases Option.map_eq_some'.mp h with ⟨⟨v, r⟩, hv, hval⟩
  obtain ⟨happ, hlen⟩ := readBytes_exact hv
  injection hval with hn hr
  subst hn; subst hr
  rw [← hlen, writeLE_toLENat, happ]

theorem toLENat_lt : ∀ (v : List Byte), toLENat v < 256 ^ v.length := by
  intro v
  induction v with
  | nil => simp [toLENat]
  | cons b t ih =>
    have hb : b.val < 256 := b.isLt
    simp only [toLENat, List.length_cons, pow_succ]
    calc b.val + 256 * toLENat t < 256 + 256 * toLENat t := by omega
    _ = 256 * (toLENat t + 1) := by ring
    _ ≤ 256 * 256 ^ t.length := by
        have : toLENat t + 1 ≤ 256 ^ t.length := ih
        exact Nat.mul_le_mul_left _ this
    _ = 256 ^ t.length * 256 := by ring

theorem readNumber_lt {w : Nat} {bs rest : List Byte} {n : Nat}
    (h : readNumber w bs = some (n, rest)) : n < 256 ^ w := by
  unfold readNumber at h
  rcases Option.map_eq_some'.mp h with ⟨⟨v, r⟩, hv, hval⟩
  obtain ⟨_, hlen⟩ := readBytes_exact hv
  injection hval with hn _
  subst hn
  rw [← hlen]
  exact toLENat_lt v

theorem readVarNumber_exact {bs rest : List Byte} {n : Nat}
    (h : readVarNumber bs = some (n, rest)) : writeVarNumber n ++ rest = bs := by
  match bs with
  | [] => exact absurd h (by simp [readVarNumber])
  | b :: tl =>
    have hb : b.val < 256 := b.isLt
    simp only [readVarNumber] at h
    by_cases h1 : b.val < 253
    · rw [if_pos h1] at h
      injection h with h2
      injection h2 with hn hr
      subst hn; subst hr
      have : writeVarNumber b.val = [mkByte b.val] := by
        unfold writeVarNumber; rw [if_pos h1]
      rw [this]
      have : mkByte b.val = b := by apply Fin.ext; simp [mkByte]
      rw [this]; rfl
    · rw [if_neg h1] at h
      by_cases h2 : b.val = 253
      · rw [if_pos h2] at h
        rcases Option.bind_eq_some.mp h with ⟨⟨m, r⟩, hm, hcond⟩
        have hlt : m < 65536 := by
          have := readNumber_lt hm; norm_num at this; omega
        split at hcond
        · injection hcond with h3
          injection h3 with hn hr
          subst hn; subst hr
          have hw : writeVarNumber m = mkByte 253 :: writeLE 2 m := by
            unfold writeVarNumber
            rw [if_neg (by omega), if_pos hlt]
          rw [hw]
          have hbeq : mkByte 253 = b := by apply Fin.ext; simp [mkByte]; omega
          rw [hbeq]
          have := readNumber_exact hm
          simp only [List.cons_append, this]
        · exact absurd hcond (by simp)
      · rw [if_neg h2] at h
        by_cases h3 : b.val = 254
        · rw [if_pos h3] at h
          rcases Option.bind_eq_some.mp h with ⟨⟨m, r⟩, hm, hcond⟩
          have hlt : m < 4294967296 := by
            have := readNumber_lt hm; norm_num at this; omega
          split at hcond
          · rename_i hge
            injection hcond with h4
            injection h4 with hn hr
            subst hn; subst hr
            have hw : writeVarNumber m = mkByte 254 :: writeLE 4 m := by
              unfold writeVarNumber
              rw [if_neg (by omega), if_neg (by omega), if_pos hlt]
            rw [hw]
            have hbeq : mkByte 254 = b := by apply Fin.ext; simp [mkByte]; omega
            rw [hbeq]
            have := readNumber_exact hm
            simp only [List.cons_append, this]
          · exact absurd hcond (by simp)
        · rw [if_neg h3] at h
          rcases Option.bind_eq_some.mp h with ⟨⟨m, r⟩, hm, hcond⟩
          split at hcond
          · rename_i hge
            injection hcond with h4
            injection h4 with hn hr
            subst hn; subst hr
            have hw : writeVarNumber m = mkByte 255 :: writeLE 8 m := by
              unfold writeVarNumber
              rw [if_neg (by omega), if_neg (by omega), if_neg (by omega)]
            rw [hw]
            have hb255 : b.val = 255 := by omega
            have hbeq : mkByte 255 = b := by apply Fin.ext; simp [mkByte]; omega
            rw [hbeq]
            have := readNumber_exact hm
            simp only [List.cons_append, this]
          · exact absurd hcond (by simp)

theorem readVarString_exact {bs v rest : List Byte}
    (h : readVarString bs = some (v, rest)) : writeVarString v ++ rest = bs := by
  unfold readVarString at h
  rcases Option.bind_eq_some.mp h with ⟨⟨n, r⟩, hn, hv⟩
  obtain ⟨happ, hlen⟩ := readBytes_exact hv
  unfold writeVarString
  rw [hlen, List.append_assoc, happ]
  exact readVarNumber_exact hn

theorem readChunks_exact {k : Nat} : ∀ {n : Nat} {bs rest : List Byte} {hs : List (List Byte)},
    readChunks k n bs = some (hs, rest) → hs.flatten ++ rest = bs ∧ hs.length = n := by
  intro n
  induction n with
  | zero =>
    intro bs rest hs h
    unfold readChunks at h
    injection h with h1
    injection h1 with hhs hr
    subst hhs; subst hr
    exact ⟨rfl, rfl⟩
  | succ m ih =>
    intro bs rest hs h
    unfold readChunks at h
    rcases Option.bind_eq_some.mp h with ⟨⟨v, r1⟩, hv, hrest⟩
    rcases Option.map_eq_some'.mp hrest with ⟨⟨t, r2⟩, ht, heq⟩
    injection heq with hhs hr
    subst hhs; subst hr
    obtain ⟨happ1, _⟩ := readBytes_exact hv
    obtain ⟨happ2, hlen2⟩ := ih ht
    constructor
    · have hstep : (v :: t).flatten ++ r2 = v ++ (t.flatten ++ r2) := by
        simp [List.append_assoc]
      rw [hstep, happ2]
      exact happ1
    · simp [hlen2]

theorem readList_exact {k : Nat} {bs rest : List Byte} {hs : List (List Byte)}
    (h : readList k bs = some (hs, rest)) : writeList hs ++ rest = bs := by
  unfold readList at h
  rcases Option.bind_eq_some.mp h with ⟨⟨n, r⟩, hn, hc⟩
  obtain ⟨happ, hlen⟩ := readChunks_exact hc
  unfold writeList
  rw [hlen, List.append_assoc, happ]
  exact readVarNumber_exact hn

theorem readVarPair_exact {bs rest : List Byte} {t : Nat × Nat}
    (h : readVarPair bs = some (t, rest)) : writeVarPair t ++ rest = bs := by
  unfold readVarPair at h
  rcases Option.bind_eq_some.mp h with ⟨⟨a, r1⟩, ha, hrest⟩
  rcases Option.map_eq_some'.mp hrest with ⟨⟨b, r2⟩, hb, heq⟩
  injection heq with ht hr
  subst ht; subst hr
  unfold writeVarPair
  rw [List.append_assoc, readVarNumber_exact hb]
  exact readVarNumber_exact ha

theorem readVarPairs_exact : ∀ {n : Nat} {bs rest : List Byte} {ps : List (Nat × Nat)},
    readVarPairs n bs = some (ps, rest) →
    (ps.map writeVarPair).flatten ++ rest = bs ∧ ps.length = n := by
  intro n
  induction n with
  | zero =>
    intro bs rest ps h
    unfold readVarPairs at h
    injection h with h1
    injection h1 with hps hr
    subst hps; subst hr
    exact ⟨rfl, rfl⟩
  | succ m ih =>
    intro bs rest ps h
    unfold readVarPairs at h
    rcases Option.bind_eq_some.mp h with ⟨⟨t, r1⟩, ht, hrest⟩
    rcases Option.map_eq_some'.mp hrest with ⟨⟨tl, r2⟩, htl, heq⟩
    injection heq with hps hr
    subst hps; subst hr
    obtain ⟨happ2, hlen2⟩ := ih htl
    constructor
    · have hstep : ((t :: tl).map writeVarPair).flatten ++ r2 =
          writeVarPair t ++ ((tl.map writeVarPair).flatten ++ r2) := by
        simp [List.append_assoc]
      rw [hstep, happ2]
      exact readVarPair_exact ht
    · simp [hlen2]

theorem readPairList_exact {bs rest : List Byte} {ps : List (Nat × Nat)}
    (h : readPairList bs = some (ps, rest)) : writePairList ps ++ rest = bs := by
  unfold readPairList at h
  rcases Option.bind_eq_some.mp h with ⟨⟨n, r⟩, hn, hc⟩
  obtain ⟨happ, hlen⟩ := readVarPairs_exact hc
  unfold writePairList
  rw [hlen, List.append_assoc, happ]
  exact readVarNumber_exact hn

theorem SmallBlockHeader_fromBufferReader_exact {bs rest : List Byte}
    {h : SmallBlockHeader} (hr : SmallBlockHeader.fromBufferReader bs = some (h, rest)) :
    h.toBuffer ++ rest = bs := by
  unfold SmallBlockHeader.fromBufferReader at hr
  rcases Option.bind_eq_some.mp hr with ⟨⟨v1, b1⟩, e1, hr⟩
  rcases Option.bind_eq_some.mp hr with ⟨⟨v2, b2⟩, e2, hr⟩
  rcases Option.bind_eq_some.mp hr with ⟨⟨v3, b3⟩, e3, hr⟩
  rcases Option.bind_eq_some.mp hr with ⟨⟨v4, b4⟩, e4, hr⟩
  rcases Option.bind_eq_some.mp hr with ⟨⟨v5, b5⟩, e5, hr⟩
  injection hr with hr1
  injection hr1 with hh hrest
  subst hh; subst hrest
  obtain ⟨a2, _⟩ := readBytes_exact e2
  simp only [SmallBlockHeader.toBuffer, List.append_assoc]
  rw [readNumber_exact e5, readNumber_exact e4, readNumber_exact e3, a2]
  exact readNumber_exact e1

theorem SegwitInfo_fromBufferReader_exact {bs rest : List Byte}
    {sg : SegwitInfo} (hr : SegwitInfo.fromBufferReader bs = some (sg, rest)) :
    sg.toBuffer ++ rest = bs := by
  unfold SegwitInfo.fromBufferReader at hr
  rcases Option.bind_eq_some.mp hr with ⟨⟨v1, b1⟩, e1, hr⟩
  rcases Option.bind_eq_some.mp hr with ⟨⟨v2, b2⟩, e2, hr⟩
  rcases Option.bind_eq_some.mp hr with ⟨⟨v3, b3⟩, e3, hr⟩
  injection hr with hr1
  injection hr1 with hh hrest
  subst hh; subst hrest
  obtain ⟨a3, _⟩ := readBytes_exact e3
  simp only [SegwitInfo.toBuffer, List.append_assoc]
  rw [a3, readNumber_exact e2]
  exact readList_exact e1

theorem HashLink_fromBufferReader_exact {bs rest : List Byte}
    {hl : HashLink} (hr : HashLink.fromBufferReader bs = some (hl, rest)) :
    hl.toBuffer ++ rest = bs := by
  unfold HashLink.fromBufferReader at hr
  rcases Option.bind_eq_some.mp hr with ⟨⟨v1, b1⟩, e1, hr⟩
  rcases Option.bind_eq_some.mp hr with ⟨⟨v2, b2⟩, e2, hr⟩
  rcases Option.bind_eq_some.mp hr with ⟨⟨v3, b3⟩, e3, hr⟩
  injection hr with hr1
  injection hr1 with hh hrest
  subst hh; subst hrest
  obtain ⟨a1, _⟩ := readBytes_exact e1
  simp only [HashLink.toBuffer, List.append_assoc]
  rw [readVarString_exact e3, readNumber_exact e2]
  exact a1

theorem ShareData_fromBufferReader_exact {bs rest : List Byte}
    {d : ShareData} (hr : ShareData.fromBufferReader bs = some (d, rest)) :
    d.toBuffer ++ rest = bs := by
  unfold ShareData.fromBufferReader at hr
  rcases Option.bind_eq_some.mp hr with ⟨⟨v1, b1⟩, e1, hr⟩
  rcases Option.bind_eq_some.mp hr with ⟨⟨v2, b2⟩, e2, hr⟩
  rcases Option.bind_eq_some.mp hr with ⟨⟨v3, b3⟩, e3, hr⟩
  rcases Option.bind_eq_some.mp hr with ⟨⟨v4, b4⟩, e4, hr⟩
  rcases Option.bind_eq_some.mp hr with ⟨⟨v5, b5⟩, e5, hr⟩
  rcases Option.bind_eq_some.mp hr with ⟨⟨v6, b6⟩, e6, hr⟩
  rcases Option.bind_eq_some.mp hr with ⟨⟨v7, b7⟩, e7, hr⟩
  rcases Option.bind_eq_some.mp hr with ⟨⟨v8, b8⟩, e8, hr⟩
  injection hr with hr1
  injection hr1 with hh hrest
  subst hh; subst hrest
  obtain ⟨a1, _⟩ := readBytes_exact e1
  obtain ⟨a4, _⟩ := readBytes_exact e4
  simp only [ShareData.toBuffer, List.append_assoc]
  rw [readVarNumber_exact e8, readNumber_exact e7, readNumber_exact e6,
    readNumber_exact e5, a4, readNumber_exact e3, readVarString_exact e2]
  exact a1

theorem readSegwitTail_isSome {sw : Bool} {bs : List Byte}
    {p : Option SegwitInfo × List Byte}
    (hr : readSegwitTail sw bs = some p) : p.1.isSome = sw := by
  unfold readSegwitTail at hr
  cases sw
  · rw [if_neg (by simp)] at hr
    injection hr with hr1
    rw [← hr1]
    rfl
  · rw [if_pos rfl] at hr
    rcases Option.bind_eq_some.mp hr with ⟨⟨sg, r⟩, hsg, heq⟩
    injection heq with heq1
    rw [← heq1]
    rfl

theorem readSegwitTail_exact {bs rest : List Byte} {sw : Bool} {o : Option SegwitInfo}
    (hr : readSegwitTail sw bs = some (o, rest)) : writeSegwitTail o ++ rest = bs := by
  unfold readSegwitTail at hr
  split at hr
  · rcases Option.bind_eq_some.mp hr with ⟨⟨sg, r⟩, hsg, heq⟩
    injection heq with heq1
    injection heq1 with ho hrest
    subst ho; subst hrest
    exact SegwitInfo_fromBufferReader_exact hsg
  · injection hr with hr1
    injection hr1 with ho hrest
    subst ho; subst hrest
    rfl

theorem ShareInfo_fromBufferReader_exact {bs rest : List Byte} {sw : Bool}
    {i : ShareInfo} (hr : ShareInfo.fromBufferReader bs sw = some (i, rest)) :
    (i.toBuffer ++ rest = bs) ∧ i.segwit.isSome = sw := by
  unfold ShareInfo.fromBufferReader at hr
  cases e1 : ShareData.fromBufferReader bs with
  | none =>
    rw [e1, Option.none_bind] at hr
    exact Option.noConfusion hr
  | some p1 =>
    simp only [e1, Option.some_bind] at hr
    cases e2 : readPairList p1.2 with
    | none =>
      rw [e2, Option.none_bind] at hr
      exact Option.noConfusion hr
    | some p2 =>
      simp only [e2, Option.some_bind] at hr
      cases e3 : readList 32 p2.2 with
      | none =>
        rw [e3, Option.none_bind] at hr
        exact Option.noConfusion hr
      | some p3 =>
        simp only [e3, Option.some_bind] at hr
        cases e4 : readBytes 32 p3.2 with
        | none =>
          rw [e4, Option.none_bind] at hr
          exact Option.noConfusion hr
        | some p4 =>
          simp only [e4, Option.some_bind] at hr
          cases e5 : readNumber 4 p4.2 with
          | none =>
            rw [e5, Option.none_bind] at hr
            exact Option.noConfusion hr
          | some p5 =>
            simp only [e5, Option.some_bind] at hr
            cases e6 : readNumber 4 p5.2 with
            | none =>
              rw [e6, Option.none_bind] at hr
              exact Option.noConfusion hr
            | some p6 =>
              simp only [e6, Option.some_bind] at hr
              cases e7 : readNumber 4 p6.2 with
              | none =>
                rw [e7, Option.none_bind] at hr
                exact Option.noConfusion hr
              | some p7 =>
                simp only [e7, Option.some_bind] at hr
                cases e8 : readNumber 16 p7.2 with
                | none =>
                  rw [e8, Option.none_bind] at hr
                  exact Option.noConfusion hr
                | some p8 =>
                  simp only [e8, Option.some_bind] at hr
                  cases e9 : readSegwitTail sw p8.2 with
                  | none =>
                    rw [e9, Option.none_bind] at hr
                    exact Option.noConfusion hr
                  | some p9 =>
                    simp only [e9, Option.some_bind] at hr
                    injection hr with hr1
                    injection hr1 with hh hrest
                    subst hh; subst hrest
                    have a4 := (readBytes_exact e4).1
                    refine ⟨?_, readSegwitTail_isSome e9⟩
                    simp only [ShareInfo.toBuffer, List.append_assoc]
                    rw [readSegwitTail_exact e9, readNumber_exact e8, readNumber_exact e7,
                      readNumber_exact e6, readNumber_exact e5, a4, readList_exact e3,
                      readPairList_exact e2]
                    exact ShareData_fromBufferReader_exact e1

theorem BaseShare_readFields_exact {sav : Int} {version : Nat}
    {bs rest : List Byte} {s : BaseShare}
    (hr : BaseShare.readFields sav version bs = some (s, rest)) :
    (s.toBuffer ++ rest = bs) ∧
      s.info.segwit.isSome = BaseShare.isSegwitActivated sav version := by
  unfold BaseShare.readFields at hr
  cases hm : ShareVersionMapper version with
  | none => rw [hm] at hr; exact absurd hr (by simp)
  | some _ =>
    rw [hm] at hr
    rcases Option.bind_eq_some.mp hr with ⟨⟨v1, b1⟩, e1, hr⟩
    rcases Option.bind_eq_some.mp hr with ⟨⟨v2, b2⟩, e2, hr⟩
    rcases Option.bind_eq_some.mp hr with ⟨⟨v3, b3⟩, e3, hr⟩
    rcases Option.bind_eq_some.mp hr with ⟨⟨v4, b4⟩, e4, hr⟩
    rcases Option.bind_eq_some.mp hr with ⟨⟨v5, b5⟩, e5, hr⟩
    rcases Option.bind_eq_some.mp hr with ⟨⟨v6, b6⟩, e6, hr⟩
    injection hr with hr1
    injection hr1 with hh hrest
    subst hh; subst hrest
    refine ⟨?_, (ShareInfo_fromBufferReader_exact e2).2⟩
    simp only [BaseShare.toBuffer, List.append_assoc]
    rw [readList_exact e6, HashLink_fromBufferReader_exact e5,
      readNumber_exact e4, readList_exact e3,
      (ShareInfo_fromBufferReader_exact e2).1]
    exact SmallBlockHeader_fromBufferReader_exact e1

theorem GENTX_BEFORE_REFHASH_literal :
    GENTX_BEFORE_REFHASH = hexToBytes "434104ffd03de44a6e11b9917f3a29f9443283d9871c9d743ef30d5eddcd37094b64d1b3d8090496b53256786bf5c82932ec23c3b74d9f05a6f95a8b5529352656664bac00000000000000002a6a28" := by
  rfl

/-- C1: the block-notify listener is claimed to suppress the second delivery
of the same non-empty hash via `lastNotifiedHash`, invoking
`refreshMiningInfoAsync` exactly once across the two deliveries.  The code
refutes this: `lastNotifiedHash` is never assigned, so the handler leaves
the state unchanged and refreshes on both deliveries — the count over two
deliveries of the non-empty hash "ab" is 2, not 1. -/
theorem blockNotify_duplicate_hash_refreshes_twice :
    blockNotifyRun none ["ab", "ab"] = (none, 2) ∧
    onBlockNotifyingSocketConnected none "ab" = (none, true) ∧
    ("ab" : String) ≠ "" := by
  refine ⟨rfl, rfl, by decide⟩

/-- C2: the claim says a `remember_tx` call whose hashes are pairwise
distinct, none already remembered and all known does not disconnect the
sender.  The code refutes this: the guard
`txHashes.any(hash => sender.rememberedTxs.has(hash))` ignores the loop
variable, so after the first hash is remembered the second iteration sees
it in `rememberedTxs` and disconnects.  On hashes ["a", "b"], both known
and none previously remembered, the sender is disconnected. -/
theorem remember_tx_distinct_known_hashes_disconnect :
    (handleRemember_tx peerC2 nodeC2 ["a", "b"] []).disconnected = true ∧
    ("a" : String) ≠ "b" ∧
    lookupKey peerC2.knownTxs "a" = some ttA ∧
    lookupKey peerC2.knownTxs "b" = some ttB ∧
    nodeC2.rememberedTxs = [] := by
  refine ⟨rfl, by decide, rfl, rfl, rfl⟩

/-- C9: for every version not in the share-version registry, the static
parser returns an absent result, for every buffer (so without reading any
share fields), and — being a total function into Option — without any
exception. -/
theorem fromBufferReader_unknown_version_absent (env : ShareEnv) (version : Nat)
    (h16 : version ≠ 16) (h17 : version ≠ 17) (bs : List Byte) :
    BaseShare.fromBufferReader env version bs = none := by
  unfold BaseShare.fromBufferReader BaseShare.readFields ShareVersionMapper
  rw [if_neg h16, if_neg h17]
  rfl

/-- Witness for C9 at version 5 on the empty buffer. -/
theorem fromBufferReader_unknown_version_absent_witness :
    BaseShare.fromBufferReader env0 5 [] = none :=
  fromBufferReader_unknown_version_absent env0 5 (by decide) (by decide) []

/-- C7: the knownTxsCaches list never exceeds 10 snapshots — every change
pushes one snapshot of the removed entries and drops the oldest beyond the
bound — and after 11 successive mutations each removing a distinct hash,
the first snapshot is gone and exactly the most recent 10 remain. -/
theorem knownTxsCaches_window :
    (∀ (peers : List Node) caches oldValue newValue, caches.length ≤ 10 →
      (onKnownTxsChanged peers caches oldValue newValue).1.length ≤ 10) ∧
    c7run = (c7hashes.drop 1).map (fun h => [(h, c7tt h)]) ∧
    [("h0", c7tt "h0")] ∉ c7run := by
  refine ⟨?_, by decide, by decide⟩
  intro peers caches oldValue newValue hlen
  unfold onKnownTxsChanged
  simp only
  split
  · rename_i hgt
    simp only [List.length_append, List.length_singleton] at hgt
    simp only [List.length_drop, List.length_append, List.length_singleton]
    omega
  · rename_i hle
    simp only [not_lt, List.length_append, List.length_singleton] at hle
    simp only [List.length_append, List.length_singleton]
    omega

/-- Witness for C7's bound at the empty coordinator state. -/
theorem knownTxsCaches_window_witness :
    (onKnownTxsChanged [] [] [] []).1.length ≤ 10 :=
  knownTxsCaches_window.1 [] [] [] [] (by decide)

/-- C8: whenever miningTxs loses entries, every registered peer is sent
`forget_tx` carrying the removed entries' keys (txid preferred over hash)
and a totalSize equal to the sum of `data.length / 2` over the removed
templates; removing two templates with hex-data lengths 200 and 300 yields
totalSize 250. -/
theorem onMiningTxsChanged_forget_tx :
    (∀ (peers : List Node) oldValue newValue, exceptKeys oldValue newValue ≠ [] →
      ∀ nd ∈ peers,
        (nd.tag, PeerMsg.forget_tx
          (((exceptKeys oldValue newValue).map fun kv => kv.2).map txKey)
          ((((exceptKeys oldValue newValue).map fun kv => kv.2).map
            fun tx => (tx.data.length : ℚ) / 2).sum))
          ∈ onMiningTxsChanged peers oldValue newValue) ∧
    onMiningTxsChanged [nodeC8] c8old [] =
      [("p", PeerMsg.forget_tx ["x", "y"] 250)] := by
  constructor
  · intro peers oldValue newValue hne nd hnd
    unfold onMiningTxsChanged
    simp only
    apply List.mem_append.mpr
    right
    have hrem : ((exceptKeys oldValue newValue).map fun kv => kv.2).isEmpty = false := by
      cases h : exceptKeys oldValue newValue with
      | nil => exact absurd h hne
      | cons a t => simp
    rw [if_neg (by rw [hrem]; exact Bool.false_ne_true)]
    exact List.mem_map_of_mem _ hnd
  · have htotal : ((((exceptKeys c8old []).map fun kv => kv.2).map
        fun tx => (tx.data.length : ℚ) / 2).sum) = 250 := by
      show (s200.length : ℚ) / 2 + ((s300.length : ℚ) / 2 + 0) = 250
      rw [show s200.length = 200 from rfl, show s300.length = 300 from rfl]
      norm_num
    simp only [onMiningTxsChanged]
    rw [htotal]
    decide

/-- Witness for C8 at the concrete two-template state. -/
theorem onMiningTxsChanged_forget_tx_witness :
    (nodeC8.tag, PeerMsg.forget_tx
      (((exceptKeys c8old []).map fun kv => kv.2).map txKey)
      ((((exceptKeys c8old []).map fun kv => kv.2).map
        fun tx => (tx.data.length : ℚ) / 2).sum))
      ∈ onMiningTxsChanged [nodeC8] c8old [] :=
  onMiningTxsChanged_forget_tx.1 [nodeC8] c8old [] (by decide) nodeC8
    (List.mem_singleton.mpr rfl)

-- C5: remember_tx lookup order and unknown-hash disconnection.

theorem lookupKey_mapSet_self {α : Type} (m : List (String × α)) (k : String) (v : α) :
    lookupKey (mapSet m k v) k = some v := by
  induction m with
  | nil => simp [mapSet, lookupKey]
  | cons kv rest ih =>
    obtain ⟨k1, v1⟩ := kv
    unfold mapSet
    by_cases h : k1 = k
    · rw [if_pos h]
      unfold lookupKey
      rw [if_pos h]
    · rw [if_neg h]
      unfold lookupKey
      rw [if_neg h]
      exact ih

theorem rememberHashesLoop_unknown (knownTxs : List (String × TransactionTemplate))
    (caches : List (List (String × TransactionTemplate))) (txHashes : List String) :
    ∀ (pending : List String) (rem : List (String × String)),
      (∃ h ∈ pending, (lookupKey knownTxs h <|> cacheLookup caches h) = none) →
      (rememberHashesLoop knownTxs caches txHashes rem pending).1 = true := by
  intro pending
  induction pending with
  | nil =>
    intro rem hex
    rcases hex with ⟨h, hm, _⟩
    exact absurd hm (List.not_mem_nil h)
  | cons h rest ih =>
    intro rem hex
    unfold rememberHashesLoop
    split
    · rfl
    · cases hl : (lookupKey knownTxs h <|> cacheLookup caches h) with
      | none => rfl
      | some tx =>
        rcases hex with ⟨h2, hm2, hn2⟩
        rcases List.mem_cons.mp hm2 with heq | hm3
        · subst heq
          rw [hl] at hn2
          exact absurd hn2 (by simp)
        · exact ih _ ⟨h2, hm3, hn2⟩

/-- C5 counterexample: the claim says the caches are scanned most recent
first.  With hash "h" in two snapshots, the code remembers the template of
the oldest snapshot (data "aa"), not the one the claimed most-recent-first
scan yields (data "bb"): `where(...).firstOrDefault()` walks the array from
the front while `push`/`shift` keep the oldest snapshot at the front. -/
theorem remember_tx_cache_scan_counterexample :
    lookupKey (handleRemember_tx peerC5 nodeC5 ["h"] []).sender.rememberedTxs "h" =
      some "aa" ∧
    cacheLookupSpec peerC5.knownTxsCaches "h" = some t2C5 ∧
    knownTxLookup peerC5 "h" = some t1C5 ∧
    t1C5.data = "aa" ∧ t2C5.data = "bb" ∧ ("aa" : String) ≠ "bb" := by
  refine ⟨rfl, rfl, rfl, rfl, rfl, by decide⟩

/-- C5 (amended): every hash of a `remember_tx` is looked up first in
knownTxs and then in the knownTxsCaches snapshots scanning the oldest
snapshot first (`knownTxLookup`); a found hash is remembered with the
found template's data, and when some referenced hash is in neither, the
sender is disconnected and removed from the coordinator's peers map. -/
theorem handleRemember_tx_lookup_order :
    (∀ (p : Peer) (sender : Node) (h : String) (tx : TransactionTemplate),
      lookupKey sender.rememberedTxs h = none →
      knownTxLookup p h = some tx →
      (handleRemember_tx p sender [h] []).disconnected = false ∧
      lookupKey (handleRemember_tx p sender [h] []).sender.rememberedTxs h =
        some tx.data) ∧
    (∀ (p : Peer) (sender : Node) (txHashes : List String) (txs : List Transaction),
      (∃ h ∈ txHashes, knownTxLookup p h = none) →
      (handleRemember_tx p sender txHashes txs).disconnected = true ∧
      ∀ nd ∈ (handleRemember_tx p sender txHashes txs).state.peers,
        nd.tag ≠ sender.tag) := by
  constructor
  · intro p sender h tx h1 h2
    unfold knownTxLookup at h2
    have hr1 : rememberHashesLoop p.knownTxs p.knownTxsCaches [h]
        sender.rememberedTxs [h] = (false, mapSet sender.rememberedTxs h tx.data) := by
      unfold rememberHashesLoop
      rw [if_neg (by simp [h1]), h2]
      rfl
    unfold handleRemember_tx
    rw [hr1]
    simp only [rememberTxsLoop]
    exact ⟨rfl, lookupKey_mapSet_self _ _ _⟩
  · intro p sender txHashes txs hex
    have hex2 : ∃ h ∈ txHashes, (lookupKey p.knownTxs h <|> cacheLookup p.knownTxsCaches h) = none := by
      simpa [knownTxLookup] using hex
    have hloop := rememberHashesLoop_unknown p.knownTxs p.knownTxsCaches txHashes
      txHashes sender.rememberedTxs hex2
    unfold handleRemember_tx
    rw [if_pos hloop]
    refine ⟨rfl, ?_⟩
    intro nd hnd
    have hmem := List.mem_filter.mp hnd
    simpa using hmem.2

/-- Witness for C5: a known single hash is remembered without disconnect,
and an unknown hash disconnects and removes the sender. -/
theorem handleRemember_tx_lookup_order_witness :
    ((handleRemember_tx peerC2 nodeC2 ["a"] []).disconnected = false ∧
      lookupKey (handleRemember_tx peerC2 nodeC2 ["a"] []).sender.rememberedTxs "a" =
        some ttA.data) ∧
    ((handleRemember_tx peerC5w nodeC5w ["y"] []).disconnected = true ∧
      ∀ nd ∈ (handleRemember_tx peerC5w nodeC5w ["y"] []).state.peers,
        nd.tag ≠ nodeC5w.tag) :=
  ⟨handleRemember_tx_lookup_order.1 peerC2 nodeC2 "a" ttA rfl rfl,
   handleRemember_tx_lookup_order.2 peerC5w nodeC5w ["y"] []
     ⟨"y", List.mem_singleton.mpr rfl, rfl⟩⟩

/-- C10: with SEGWIT_ACTIVATION_VERSION left at its default 0 (or any
non-positive value) `isSegwitActivated` is false for every version, the
segwit txidMerkleLink path of `init()` is never taken (the chosen Merkle
link is always the share's own `merkleLink`), parsing never reads a segwit
sub-structure, and activation requires a strictly positive
SEGWIT_ACTIVATION_VERSION. -/
theorem isSegwitActivated_default_off :
    (∀ v : Int, BaseShare.isSegwitActivated segwitActivationVersionDefault v = false) ∧
    (∀ sav : Int, sav ≤ 0 → ∀ v : Int, BaseShare.isSegwitActivated sav v = false) ∧
    (∀ sav v : Int, BaseShare.isSegwitActivated sav v = true → 0 < sav ∧ sav ≤ v) ∧
    (∀ (env : ShareEnv) (s : BaseShare), env.segwitActivationVersion ≤ 0 →
      merkleLinkChosen env s = s.merkleLink) ∧
    (∀ (env : ShareEnv) (version : Nat) (bs : List Byte)
      (r : (BaseShare × Except Unit (Option ShareDerived)) × List Byte),
      env.segwitActivationVersion ≤ 0 →
      BaseShare.fromBufferReader env version bs = some r →
      r.1.1.info.segwit = none) := by
  have hoff : ∀ sav : Int, sav ≤ 0 → ∀ v : Int,
      BaseShare.isSegwitActivated sav v = false := by
    intro sav hs v
    unfold BaseShare.isSegwitActivated
    have : ¬(0 < sav) := by omega
    simp [this]
  refine ⟨fun v => hoff 0 le_rfl v, hoff, ?_, ?_, ?_⟩
  · intro sav v h
    unfold BaseShare.isSegwitActivated at h
    simp only [Bool.and_eq_true, decide_eq_true_eq] at h
    exact ⟨h.2, h.1⟩
  · intro env s hs
    unfold merkleLinkChosen
    rw [hoff _ hs]
    simp
  · intro env version bs r hs hp
    unfold BaseShare.fromBufferReader at hp
    rcases Option.map_eq_some'.mp hp with ⟨⟨s1, rest⟩, hf, heq⟩
    have hsw := (BaseShare_readFields_exact hf).2
    rw [hoff _ hs] at hsw
    rw [← heq]
    simp only
    cases hseg : s1.info.segwit with
    | none => rfl
    | some sg => rw [hseg] at hsw; exact absurd hsw (by simp)

/-- Witness for C10: the default and a negative activation version are off,
activation version 1 satisfies the positivity consequence at version 16,
the chosen Merkle link of the minimal share is its own merkleLink, and the
parsed minimal share carries no segwit data. -/
theorem isSegwitActivated_default_off_witness :
    BaseShare.isSegwitActivated (-1) 20 = false ∧
    (0 < (1 : Int) ∧ (1 : Int) ≤ 16) ∧
    merkleLinkChosen env0 share0 = share0.merkleLink ∧
    ((share0, BaseShare.init env0 share0), ([] : List Byte)).1.1.info.segwit = none :=
  ⟨isSegwitActivated_default_off.2.1 (-1) (by decide) 20,
   isSegwitActivated_default_off.2.2.1 1 16 (by decide),
   isSegwitActivated_default_off.2.2.2.1 env0 share0 (by decide),
   isSegwitActivated_default_off.2.2.2.2 env0 16 b0
     ((share0, BaseShare.init env0 share0), []) (by decide) (by rfl)⟩

/-- C6 counterexample: the claim says every validation failure of `init()` —
including a tuple with shareCount ≥ 110 — leaves validity false and returns
without raising.  The code refutes this: `assert.equal(shareCount < 110,
true)` throws an AssertionError on the tuple (110, 0). -/
theorem init_assert_counterexample :
    BaseShare.init env0 share110 = Except.error () ∧
    (110, 0) ∈ share110.info.txHashRefs :=
  ⟨rfl, by decide⟩

/-- C6 (amended): a hash-ref tuple with shareCount ≥ 110 makes `init()`
raise (the failed assert); the other validation failures — dedup-count
mismatch, too-high target, insufficient proof of work — leave validity
false and return without raising any exception. -/
theorem init_validation_failures :
    (∀ (env : ShareEnv) (s : BaseShare),
      (s.info.txHashRefs.any fun t => 110 ≤ t.1) = true →
      BaseShare.init env s = Except.error ()) ∧
    (∀ (env : ShareEnv) (s : BaseShare),
      (s.info.txHashRefs.any fun t => 110 ≤ t.1) = false →
      (dedupTxCounts s.info.txHashRefs).length ≠ s.info.newTransactionHashes.length →
      BaseShare.init env s = Except.ok none) ∧
    (∀ (env : ShareEnv) (s : BaseShare) (g : List Byte),
      (s.info.txHashRefs.any fun t => 110 ≤ t.1) = false →
      (dedupTxCounts s.info.txHashRefs).length = s.info.newTransactionHashes.length →
      gentxHashOf env s = some g →
      ¬(BaseShare.isSegwitActivated env.segwitActivationVersion (s.version : Int) ∧
        s.info.segwit = none) →
      env.maxTarget < env.bitsToTarget s.info.bits →
      BaseShare.init env s = Except.ok none) ∧
    (∀ (env : ShareEnv) (s : BaseShare) (g : List Byte),
      (s.info.txHashRefs.any fun t => 110 ≤ t.1) = false →
      (dedupTxCounts s.info.txHashRefs).length = s.info.newTransactionHashes.length →
      gentxHashOf env s = some g →
      ¬(BaseShare.isSegwitActivated env.segwitActivationVersion (s.version : Int) ∧
        s.info.segwit = none) →
      env.bitsToTarget s.info.bits ≤ env.maxTarget →
      env.bitsToTarget s.info.bits < sharePowValue env s g →
      BaseShare.init env s = Except.ok none) := by
  refine ⟨?_, ?_, ?_, ?_⟩
  · intro env s h
    simp [BaseShare.init, h]
  · intro env s h110 hd
    simp [BaseShare.init, h110, hd]
  · intro env s g h110 hd hg hseg htarget
    simp [BaseShare.init, h110, hd, hg, hseg, htarget]
  · intro env s g h110 hd hg hseg htarget hpow
    simp [BaseShare.init, h110, hd, hg, hseg, not_lt.mpr htarget, hpow]

/-- Witness for C6: the assert raises at the (110, 0) tuple, and each of the
three plain validation failures returns with validity false and no
exception. -/
theorem init_validation_failures_witness :
    BaseShare.init env0 share110 = Except.error () ∧
    BaseShare.init env0 shareMis = Except.ok none ∧
    BaseShare.init envT share0 = Except.ok none ∧
    BaseShare.init envP shareP = Except.ok none :=
  ⟨init_validation_failures.1 env0 share110 rfl,
   init_validation_failures.2.1 env0 shareMis rfl (by decide),
   init_validation_failures.2.2.1 envT share0 [] rfl rfl rfl (by decide) (by decide),
   init_validation_failures.2.2.2 envP shareP [] rfl rfl rfl (by decide) (by decide)
     (by decide)⟩

/-- C3: for every share whose `init()` completes with validity true, the
proof-of-work value of the full header read little-endian is at most the
share's target, the target is at most MAX_TARGET, the number of distinct
`(shareCount == 0, txCount)` hash-ref tuples equals
`newTransactionHashes.length`, and the target is `bitsToTarget(bits)`. -/
theorem init_valid_invariants (env : ShareEnv) (s : BaseShare) (d : ShareDerived)
    (h : BaseShare.init env s = Except.ok (some d)) :
    ∃ g, gentxHashOf env s = some g ∧
      sharePowValue env s g ≤ d.target ∧
      d.target ≤ env.maxTarget ∧
      (dedupTxCounts s.info.txHashRefs).length = s.info.newTransactionHashes.length ∧
      d.target = env.bitsToTarget s.info.bits := by
  simp only [BaseShare.init] at h
  split at h
  · exact absurd h (by simp)
  split at h
  · exact absurd h (by simp)
  rename_i h110 hdedup
  cases hg : gentxHashOf env s with
  | none => rw [hg] at h; exact absurd h (by simp)
  | some g =>
    rw [hg] at h
    simp only [] at h
    split at h
    · exact absurd h (by simp)
    split at h
    · exact absurd h (by simp)
    split at h
    · exact absurd h (by simp)
    rename_i hseg htarget hpow
    injection h with h1
    injection h1 with h2
    refine ⟨g, rfl, ?_, ?_, ?_, ?_⟩
    · rw [← h2]
      exact not_lt.mp hpow
    · rw [← h2]
      exact not_lt.mp htarget
    · exact not_ne_iff.mp hdedup
    · rw [← h2]

/-- Witness for C3 at the minimal valid share. -/
theorem init_valid_invariants_witness :
    ∃ g, gentxHashOf env0 share0 = some g ∧
      sharePowValue env0 share0 g ≤ d0.target ∧
      d0.target ≤ env0.maxTarget ∧
      (dedupTxCounts share0.info.txHashRefs).length =
        share0.info.newTransactionHashes.length ∧
      d0.target = env0.bitsToTarget share0.info.bits :=
  init_valid_invariants env0 share0 d0 rfl

/-- C4: for every buffer the parser fully consumes, re-serializing the
parsed share via `toBuffer` — minHeader, info, refMerkleLink, 8-byte
little-endian lastTxoutNonce, hashLink, merkleLink, in the order parsing
reads them — reproduces the buffer byte-exactly. -/
theorem parse_serialize_roundtrip (env : ShareEnv) (version : Nat) (b : List Byte)
    (s : BaseShare) (o : Except Unit (Option ShareDerived))
    (h : BaseShare.fromBufferReader env version b = some ((s, o), [])) :
    s.toBuffer = b := by
  unfold BaseShare.fromBufferReader at h
  rcases Option.map_eq_some'.mp h with ⟨⟨s1, rest⟩, hf, heq⟩
  injection heq with h1 h2
  injection h1 with hs ho
  subst hs
  subst h2
  have hx := (BaseShare_readFields_exact hf).1
  simpa using hx

/-- Witness for C4: the minimal v16 share's buffer parses back to the share
and re-serializes to the same bytes. -/
theorem parse_serialize_roundtrip_witness : share0.toBuffer = b0 :=
  parse_serialize_roundtrip env0 16 b0 share0 (BaseShare.init env0 share0) rfl
